import Mathlib

/-!
# Verification of the Dexscreener analytics core

A shallow embedding, in Lean 4, of the time-series aggregation, trend and
scoring engine of the repository (the `PerformanceAnalyzer` class, the
`WeeklyReportGenerator` aggregation/statistics methods, and the
`TokenDatabase.getTopPerformers` query), together with theorems checking the
natural-language specification's claims against it.

Modelling conventions, applied uniformly:
* JavaScript numbers are modelled as rationals (`ℚ`); `Math.sqrt` is modelled
  as `Real.sqrt`, so the statistics that take a square root return `ℝ`.
* A missing or `NaN` numeric field and the number `0` are both JavaScript
  falsy and are treated identically by every piece of code modelled here
  (each read is guarded by `|| fallback` or a comparison); both are encoded
  as the rational `0`, so `x || 0` is the identity and `x || c` is
  `if x = 0 then c else x`.
* `token.address || token.symbol` — the canonical identity used for every
  join — is modelled as a single `key : String` field.
* JavaScript `Map` (insertion-ordered, keyed) is modelled as an ordered
  association list `List (String × _)` with create-or-update (`upsert`)
  semantics; `Set` is modelled as a `Finset` (only size and membership are
  ever observed).
* `Array.prototype.sort` is stable (required since ES2019) and is modelled
  by `List.insertionSort`, which inserts each element in front of the first
  element it need not follow, preserving the relative order of ties.
-/

namespace Dexscreener

/-- Liquidity-health label returned by `assessLiquidityHealth`
(a string in the source). -/
inductive LiquidityHealth where
  | healthy | moderate | low | poor | unknown
deriving DecidableEq, Repr

/-- One asset record inside a daily snapshot, restricted to the numeric
fields the aggregation code reads, plus the canonical identity
`key = address || symbol`. -/
structure Token where
  key : String
  price : ℚ
  volume24h : ℚ
  marketCap : ℚ
  priceChange24h : ℚ
deriving DecidableEq, Repr

/-- One element of `weeklyData`: a dated snapshot whose `tokens` array may be
absent (the source guards with `dayData && dayData.tokens` and
`firstDay?.tokens`). Dates are abstracted to naturals. -/
structure DayData where
  date : ℕ
  tokens : Option (List Token)
deriving DecidableEq, Repr

/-- The per-day data point pushed onto `existing.dailyData` by
`aggregateWeeklyTokenData`. -/
structure DailyPoint where
  date : ℕ
  price : ℚ
  volume24h : ℚ
  marketCap : ℚ
  priceChange24h : ℚ
deriving DecidableEq, Repr

instance : Inhabited DailyPoint := ⟨⟨0, 0, 0, 0, 0⟩⟩

/-- `calculatePercentageChange` from `src/utils/helpers.js`:
`!previous || previous === 0` yields `0`, else `((current-previous)/previous)*100`. -/
def calculatePercentageChange (current previous : ℚ) : ℚ :=
  if previous = 0 then 0 else (current - previous) / previous * 100

/-- `values.slice(-7)`: the last `n` elements of a list (the whole list when
it is shorter than `n`). -/
def lastN (n : ℕ) (l : List α) : List α := l.drop (l.length - n)

/-- The pairwise simple returns loop shared by the two volatility methods:
for each consecutive pair with a positive left endpoint,
`(p[i]-p[i-1])/p[i-1]` (pairs with `p[i-1] ≤ 0` are skipped, as in the
source's `> 0` guard). -/
def returnsOf : List ℚ → List ℚ
  | [] => []
  | [_] => []
  | a :: b :: rest => (if 0 < a then [(b - a) / a] else []) ++ returnsOf (b :: rest)

namespace PerformanceAnalyzer

/-- `assessLiquidityHealth(liquidity, marketCap)` from the analyzer:
`!liquidity || !marketCap` gives `unknown`, otherwise the
`liquidity/marketCap*100` ratio is bucketed. -/
def assessLiquidityHealth (liquidity marketCap : ℚ) : LiquidityHealth :=
  if liquidity = 0 ∨ marketCap = 0 then .unknown
  else
    let ratio := liquidity / marketCap * 100
    if ratio > 10 then .healthy
    else if ratio > 5 then .moderate
    else if ratio > 1 then .low
    else .poor

/-- `calculateBuyToSellRatio(buys, sells)`: `!sells || sells === 0` gives the
sentinel `10` when `buys > 0` and `1` otherwise; else `buys / sells`. -/
def calculateBuyToSellRatio (buys sells : ℚ) : ℚ :=
  if sells = 0 then (if buys > 0 then 10 else 1) else buys / sells

/-- The slice of a Performance Analysis that `calculatePerformanceScore`
reads: `analysis.performance.pricePerformance.change24h`,
`analysis.performance.volumeMetrics.volumeToMcapRatio`,
`analysis.performance.liquidityMetrics.liquidityHealth` and
`analysis.performance.tradingMetrics.buyToSellRatio`.  The intermediate
record nesting is flattened; field names are kept. -/
structure AnalysisPerformance where
  change24h : ℚ
  volumeToMcapRatio : ℚ
  liquidityHealth : LiquidityHealth
  buyToSellRatio : ℚ
deriving DecidableEq, Repr

/-- `calculatePerformanceScore(analysis)` from the analyzer, line for line:
base `50`; `+ Math.min(Math.max(priceChange24h * 0.5, -25), 25)`;
`+ Math.min(volumeRatio * 0.3, 15)`; `+10`, `+5` or `-10` on liquidity health;
the `buyToSellRatio || 1` default (a zero ratio is falsy and becomes `1`)
followed by the `>1.2 / <0.8` nudge; final `Math.max(0, Math.min(100, score))`. -/
def calculatePerformanceScore (analysis : AnalysisPerformance) : ℚ :=
  let score : ℚ := 50
  let priceChange24h := analysis.change24h
  let score := score + min (max (priceChange24h * 0.5) (-25)) 25
  let volumeRatio := analysis.volumeToMcapRatio
  let score := score + min (volumeRatio * 0.3) 15
  let score := score +
    (match analysis.liquidityHealth with
     | .healthy => 10
     | .moderate => 5
     | .poor => -10
     | _ => 0)
  let buyToSellRatio := if analysis.buyToSellRatio = 0 then 1 else analysis.buyToSellRatio
  let score := score +
    (if buyToSellRatio > 1.2 then 5 else if buyToSellRatio < 0.8 then -5 else 0)
  max 0 (min 100 score)

/-- `calculateConsistency(values)` from the analyzer.  Fewer than 2 values
gives `0`; else with the population mean and standard deviation,
`mean > 0 ? 1 - (stdDev / mean) : 0`.  Note: no `Math.max(0, ...)` clamp
appears in this method (unlike the weekly reporter's variant). -/
noncomputable def calculateConsistency (values : List ℚ) : ℝ :=
  if values.length < 2 then 0
  else
    let mean : ℚ := values.sum / (values.length : ℚ)
    let variance : ℚ := (values.map (fun b => (b - mean) ^ 2)).sum / (values.length : ℚ)
    let stdDev : ℝ := Real.sqrt (variance : ℝ)
    if 0 < mean then 1 - stdDev / (mean : ℝ) else 0

/-- `calculateVolatility(prices)` from the analyzer: standard deviation of the
period-over-period returns, times 100; fewer than 2 prices or no valid
returns gives `0`. -/
noncomputable def calculateVolatility (prices : List ℚ) : ℝ :=
  if prices.length < 2 then 0
  else
    let returns := returnsOf prices
    if returns.length = 0 then 0
    else
      let mean : ℚ := returns.sum / (returns.length : ℚ)
      let variance : ℚ := (returns.map (fun b => (b - mean) ^ 2)).sum / (returns.length : ℚ)
      Real.sqrt (variance : ℝ) * 100

/-- The shape shared by the analyzer's `current` record and the entries of
its `historical` array, restricted to the fields the sustainability
sub-scores read. -/
structure TokenData where
  price : ℚ
  volume24h : ℚ
  liquidity : ℚ
  marketCap : ℚ
deriving DecidableEq, Repr

/-- `calculateVolumeConsistency(current, historical)` from the analyzer:
consistency of the last ≤7 historical `volume24h` values with the current
one appended. -/
noncomputable def calculateVolumeConsistency (current : TokenData)
    (historical : List TokenData) : ℝ :=
  calculateConsistency ((lastN 7 historical).map (·.volume24h) ++ [current.volume24h])

/-- `calculateLiquidityStability(current, historical)` from the analyzer. -/
noncomputable def calculateLiquidityStability (current : TokenData)
    (historical : List TokenData) : ℝ :=
  calculateConsistency ((lastN 7 historical).map (·.liquidity) ++ [current.liquidity])

/-- `calculatePriceStability(current, historical)` from the analyzer:
`Math.max(0, 1 - volatility/100)` over the last ≤7 historical prices with
the current one appended. -/
noncomputable def calculatePriceStability (current : TokenData)
    (historical : List TokenData) : ℝ :=
  max 0 (1 - calculateVolatility ((lastN 7 historical).map (·.price) ++ [current.price]) / 100)

/-- The overall sustainability label (a string in the source). -/
inductive SustainabilityLabel where
  | high | moderate | low | unknown
deriving DecidableEq, Repr

/-- The two record shapes `calculateSustainability` can return: the
insufficient-data record `{score: 0.5, overall: 'unknown'}` or the assessed
record carrying the three sub-scores and the overall label. -/
inductive SustainabilityResult where
  | insufficient (score : ℚ) (overall : SustainabilityLabel)
  | assessed (volumeConsistency liquidityStability priceStability : ℝ)
      (overall : SustainabilityLabel)

/-- `calculateSustainability(current, historical)` from the analyzer:
fewer than 3 historical points gives the `0.5`-scored `unknown` record; else
the three sub-scores are computed, averaged, and labelled `high` when the
average exceeds `0.7`, `low` when below `0.3`, else `moderate`. -/
noncomputable def calculateSustainability (current : TokenData)
    (historical : List TokenData) : SustainabilityResult :=
  if historical.length < 3 then .insufficient 0.5 .unknown
  else
    let volumeConsistency := calculateVolumeConsistency current historical
    let liquidityStability := calculateLiquidityStability current historical
    let priceStability := calculatePriceStability current historical
    let avgScore := (volumeConsistency + liquidityStability + priceStability) / 3
    .assessed volumeConsistency liquidityStability priceStability
      (if avgScore > 0.7 then .high else if avgScore < 0.3 then .low else .moderate)

/-- One element of the batch passed to `rankTokens`: its `score` and `rank`
fields, plus `tag`, a stand-in for the remainder of the analysis record
(used only to observe that ranking keeps equal-score elements in order). -/
structure TokenAnalysis where
  score : ℚ
  rank : ℕ
  tag : ℕ
deriving DecidableEq, Repr

/-- The comparator `(a, b) => b.score - a.score`: `a` may precede `b`
exactly when `b.score ≤ a.score` (descending by score). -/
def scoreDesc (a b : TokenAnalysis) : Prop := b.score ≤ a.score

instance : DecidableRel scoreDesc := fun a b => inferInstanceAs (Decidable (b.score ≤ a.score))

instance : IsTotal TokenAnalysis scoreDesc := ⟨fun a b => le_total b.score a.score⟩

instance : IsTrans TokenAnalysis scoreDesc :=
  ⟨fun _ _ _ h1 h2 => le_trans h2 h1⟩

/-- `rankTokens(tokenAnalyses)` from the analyzer: sort descending by score
(a stable sort, per ES2019 `Array.prototype.sort`), then assign
`analysis.rank = index + 1` in sorted order. -/
def rankTokens (tokenAnalyses : List TokenAnalysis) : List TokenAnalysis :=
  let sorted := tokenAnalyses.insertionSort scoreDesc
  sorted.enum.map (fun p => { p.2 with rank := p.1 + 1 })

end PerformanceAnalyzer

namespace WeeklyReportGenerator

/-- The per-asset accumulator of `aggregateWeeklyTokenData`, before the final
`.map` computes the averages and consistency fields: the fields created when
a key is first seen, mutated on every observation of that key.
(The `...token` spread copying the token's own scalar fields is represented
by `key` alone.) -/
structure TokenAgg where
  key : String
  dailyData : List DailyPoint
  firstSeen : ℕ
  lastSeen : ℕ
  daysActive : ℕ
  avgVolume : ℚ
  avgMarketCap : ℚ
  maxMarketCap : ℚ
  minMarketCap : ℚ
  totalVolumeWeek : ℚ
  weeklyGrowth : ℚ
deriving DecidableEq, Repr

/-- The accumulator record installed by `tokenMap.set(key, {...})` when `key`
is not yet present.  `maxMarketCap`/`minMarketCap` are initialised to
`token.marketCap || 0` — the raw market cap, with a missing one as `0`
(not a `+∞` sentinel). -/
def freshAgg (date : ℕ) (t : Token) : TokenAgg :=
  { key := t.key, dailyData := [], firstSeen := date, lastSeen := date,
    daysActive := 0, avgVolume := 0, avgMarketCap := 0,
    maxMarketCap := t.marketCap, minMarketCap := t.marketCap,
    totalVolumeWeek := 0, weeklyGrowth := 0 }

/-- The per-observation mutation of an existing accumulator: push the daily
point, update `lastSeen`, increment `daysActive`, update
`maxMarketCap = Math.max(_, marketCap || 0)` and
`minMarketCap = Math.min(_, marketCap || Infinity)` (the `Infinity`
sentinel makes a falsy market cap leave the running minimum unchanged),
add to `totalVolumeWeek`, and — once more than one point exists — recompute
`weeklyGrowth` from `dailyData[0].price` and the current token's price. -/
def updateAgg (date : ℕ) (t : Token) (e : TokenAgg) : TokenAgg :=
  let e :=
    { e with
      dailyData := e.dailyData ++ [⟨date, t.price, t.volume24h, t.marketCap, t.priceChange24h⟩],
      lastSeen := date,
      daysActive := e.daysActive + 1,
      maxMarketCap := max e.maxMarketCap t.marketCap,
      minMarketCap := if t.marketCap = 0 then e.minMarketCap else min e.minMarketCap t.marketCap,
      totalVolumeWeek := e.totalVolumeWeek + t.volume24h }
  if 1 < e.dailyData.length then
    let firstPrice := e.dailyData.headI.price
    let currentPrice := t.price
    { e with
      weeklyGrowth := if 0 < firstPrice then (currentPrice - firstPrice) / firstPrice * 100 else 0 }
  else e

/-- `tokenMap` create-or-update for one token: the `if (!tokenMap.has(key))
tokenMap.set(key, fresh)` followed by the unconditional mutation of
`tokenMap.get(key)`, on an insertion-ordered association list. -/
def upsertAgg (date : ℕ) (t : Token) : List (String × TokenAgg) → List (String × TokenAgg)
  | [] => [(t.key, updateAgg date t (freshAgg date t))]
  | (k, v) :: rest =>
      if k = t.key then (k, updateAgg date t v) :: rest
      else (k, v) :: upsertAgg date t rest

/-- The double `forEach` of `aggregateWeeklyTokenData` that builds `tokenMap`:
days in order, tokens of each day in order, skipping a day whose `tokens`
field is absent (`if (dayData && dayData.tokens)`). -/
def aggregateFold (weeklyData : List DayData) : List (String × TokenAgg) :=
  weeklyData.foldl
    (fun m dayData =>
      match dayData.tokens with
      | none => m
      | some tokens => tokens.foldl (fun m t => upsertAgg dayData.date t m) m)
    []

/-- `calculateVolumeConsistency(dailyData)` from the weekly reporter: `0` for
fewer than 2 points; volumes are `d.volume24h || 0` filtered to `> 0`, `0`
when none remain; else `mean > 0 ? Math.max(0, 1 - stdDev/mean) : 0`. -/
noncomputable def calculateVolumeConsistency (dailyData : List DailyPoint) : ℝ :=
  if dailyData.length < 2 then 0
  else
    let volumes := (dailyData.map (·.volume24h)).filter (fun v => decide (0 < v))
    if volumes.length = 0 then 0
    else
      let mean : ℚ := volumes.sum / (volumes.length : ℚ)
      let variance : ℚ := (volumes.map (fun b => (b - mean) ^ 2)).sum / (volumes.length : ℚ)
      let stdDev : ℝ := Real.sqrt (variance : ℝ)
      if 0 < mean then max 0 (1 - stdDev / (mean : ℝ)) else 0

/-- `calculatePriceVolatility(dailyData)` from the weekly reporter. -/
noncomputable def calculatePriceVolatility (dailyData : List DailyPoint) : ℝ :=
  if dailyData.length < 2 then 0
  else
    let prices := (dailyData.map (·.price)).filter (fun p => decide (0 < p))
    if prices.length < 2 then 0
    else
      let returns := returnsOf prices
      if returns.length = 0 then 0
      else
        let mean : ℚ := returns.sum / (returns.length : ℚ)
        let variance : ℚ := (returns.map (fun b => (b - mean) ^ 2)).sum / (returns.length : ℚ)
        Real.sqrt (variance : ℝ) * 100

/-- The fully aggregated per-asset series: the accumulator with `avgVolume`
and `avgMarketCap` filled in and the two statistics fields attached. -/
structure AggregatedToken extends TokenAgg where
  volumeConsistency : ℝ
  priceVolatility : ℝ

/-- The final `.map` of `aggregateWeeklyTokenData`:
`avgVolume = totalVolumeWeek / daysActive`,
`avgMarketCap = (Σ (day.marketCap || 0)) / dailyData.length`, plus the
volume-consistency and price-volatility statistics. -/
noncomputable def finalizeAgg (e : TokenAgg) : AggregatedToken :=
  { toTokenAgg :=
      { e with
        avgVolume := e.totalVolumeWeek / (e.daysActive : ℚ),
        avgMarketCap := (e.dailyData.map (·.marketCap)).sum / (e.dailyData.length : ℚ) },
    volumeConsistency := calculateVolumeConsistency e.dailyData,
    priceVolatility := calculatePriceVolatility e.dailyData }

/-- `aggregateWeeklyTokenData(weeklyData)`: build the token map, then
finalize every accumulator (in insertion order, as `Array.from(values())`). -/
noncomputable def aggregateWeeklyTokenData (weeklyData : List DayData) : List AggregatedToken :=
  (aggregateFold weeklyData).map (fun e => finalizeAgg e.2)

/-- Descending weekly growth, the comparator of `getTopWeeklyPerformers`. -/
def weeklyGrowthDesc (a b : AggregatedToken) : Prop := b.weeklyGrowth ≤ a.weeklyGrowth

instance : DecidableRel weeklyGrowthDesc :=
  fun a b => inferInstanceAs (Decidable (b.weeklyGrowth ≤ a.weeklyGrowth))

instance : IsTotal AggregatedToken weeklyGrowthDesc := ⟨fun _ _ => le_total _ _⟩

instance : IsTrans AggregatedToken weeklyGrowthDesc := ⟨fun _ _ _ h1 h2 => le_trans h2 h1⟩

/-- `getTopWeeklyPerformers(tokens, limit = 15)`: keep tokens with a defined
`weeklyGrowth` (always defined here) and `daysActive >= 3`, sort descending
by `weeklyGrowth`, truncate to `limit`.  The trailing `.map` projecting each
token onto its summary fields is omitted (it only copies fields). -/
noncomputable def getTopWeeklyPerformers (tokens : List AggregatedToken) (limit : ℕ) :
    List AggregatedToken :=
  (((tokens.filter (fun t => decide (3 ≤ t.daysActive))).insertionSort
      weeklyGrowthDesc).take limit)

/-- The record returned by `analyzeSurvivalRates`. -/
structure SurvivalResult where
  startingTokens : ℕ
  endingTokens : ℕ
  survived : ℕ
  dropped : ℕ
  newEntrants : ℕ
  survivalRate : ℚ
deriving DecidableEq, Repr

/-- `analyzeSurvivalRates(weeklyData)`: `null` for fewer than 2 days or when
either endpoint day lacks a `tokens` array; else the identity sets (JS
`Set`s, modelled as `Finset`s) of the first and last day are compared:
survivors are first-day identities present on the last day, new entrants
last-day identities absent from the first day, and
`survivalRate = survived / startingTokens * 100` (0 for an empty start). -/
def analyzeSurvivalRates (weeklyData : List DayData) : Option SurvivalResult :=
  if weeklyData.length < 2 then none
  else
    match weeklyData.head?, weeklyData.getLast? with
    | some firstDay, some lastDay =>
      match firstDay.tokens, lastDay.tokens with
      | some ft, some lt =>
        let firstDayTokens : Finset String := (ft.map (·.key)).toFinset
        let lastDayTokens : Finset String := (lt.map (·.key)).toFinset
        let survived := (firstDayTokens.filter (fun k => k ∈ lastDayTokens)).card
        let newEntrants := (lastDayTokens.filter (fun k => k ∉ firstDayTokens)).card
        some
          { startingTokens := firstDayTokens.card,
            endingTokens := lastDayTokens.card,
            survived := survived,
            dropped := firstDayTokens.card - survived,
            newEntrants := newEntrants,
            survivalRate :=
              if 0 < firstDayTokens.card then
                (survived : ℚ) / (firstDayTokens.card : ℚ) * 100
              else 0 }
      | _, _ => none
    | _, _ => none

/-- `calculateTrend(values)` from the weekly reporter: `0` for fewer than 2
values, else the single-pass accumulation of `ΣX`, `ΣY`, `ΣXY`, `ΣXX` over
`(i, values[i])` and the closed-form slope
`(n*ΣXY - ΣX*ΣY) / (n*ΣXX - ΣX*ΣX)`. -/
def calculateTrend (values : List ℚ) : ℚ :=
  if values.length < 2 then 0
  else
    let n : ℚ := (values.length : ℚ)
    let sumX : ℚ := (values.enum.map (fun p => ((p.1 : ℚ)))).sum
    let sumY : ℚ := (values.enum.map (fun p => p.2)).sum
    let sumXY : ℚ := (values.enum.map (fun p => (p.1 : ℚ) * p.2)).sum
    let sumXX : ℚ := (values.enum.map (fun p => (p.1 : ℚ) * (p.1 : ℚ))).sum
    (n * sumXY - sumX * sumY) / (n * sumXX - sumX * sumX)

end WeeklyReportGenerator

namespace TokenDatabase

/-- The per-asset accumulator of `getTopPerformers` (the `{token, firstPrice,
lastPrice, totalVolume, daysActive, maxMarketCap}` record; the carried
`token` copy is represented by nothing beyond the key of the entry). -/
structure PerfAcc where
  firstPrice : ℚ
  lastPrice : ℚ
  totalVolume : ℚ
  daysActive : ℕ
  maxMarketCap : ℚ
deriving DecidableEq, Repr

/-- Creation of a `tokenPerformance` entry: `firstPrice = lastPrice =
token.price`, zero totals, `maxMarketCap = token.marketCap || 0`. -/
def freshPerf (t : Token) : PerfAcc :=
  { firstPrice := t.price, lastPrice := t.price, totalVolume := 0,
    daysActive := 0, maxMarketCap := t.marketCap }

/-- The unconditional per-observation mutation of a `tokenPerformance`
entry. -/
def updatePerf (t : Token) (perf : PerfAcc) : PerfAcc :=
  { perf with
    lastPrice := t.price,
    totalVolume := perf.totalVolume + t.volume24h,
    daysActive := perf.daysActive + 1,
    maxMarketCap := max perf.maxMarketCap t.marketCap }

/-- Create-or-update for one token of one day's file. -/
def upsertPerf (t : Token) : List (String × PerfAcc) → List (String × PerfAcc)
  | [] => [(t.key, updatePerf t (freshPerf t))]
  | (k, v) :: rest =>
      if k = t.key then (k, updatePerf t v) :: rest
      else (k, v) :: upsertPerf t rest

/-- An element of the `performers` array: the spread token fields are
represented by the key, followed by the fields computed in the `.map`. -/
structure Performer where
  key : String
  periodGrowth : ℚ
  avgDailyVolume : ℚ
  daysActive : ℕ
  maxMarketCap : ℚ
deriving DecidableEq, Repr

/-- Descending period growth, the comparator of `getTopPerformers`. -/
def periodGrowthDesc (a b : Performer) : Prop := b.periodGrowth ≤ a.periodGrowth

instance : DecidableRel periodGrowthDesc :=
  fun a b => inferInstanceAs (Decidable (b.periodGrowth ≤ a.periodGrowth))

instance : IsTotal Performer periodGrowthDesc := ⟨fun _ _ => le_total _ _⟩

instance : IsTrans Performer periodGrowthDesc := ⟨fun _ _ _ h1 h2 => le_trans h2 h1⟩

/-- The pure core of `getTopPerformers(days, limit)` from
`src/utils/database.js`, applied to the already-loaded daily token lists
(`historicalData`, ascending by date; the surrounding file I/O and
error-catch are outside the model):
empty data returns `[]`; otherwise accumulate per-key performance over every
token of every day, keep entries with
`daysActive >= Math.min(days * 0.5, 3)`, compute
`periodGrowth = firstPrice > 0 ? (lastPrice-firstPrice)/firstPrice*100 : 0`
and `avgDailyVolume = totalVolume / daysActive`, sort descending by
`periodGrowth` and truncate with `.slice(0, limit)`. -/
def getTopPerformers (historicalData : List (List Token)) (days : ℚ) (limit : ℕ) :
    List Performer :=
  if historicalData.length = 0 then []
  else
    let tokenPerformance :=
      historicalData.foldl (fun m dayTokens => dayTokens.foldl (fun m t => upsertPerf t m) m) []
    let performers :=
      (tokenPerformance.filter
          (fun e => decide (min (days * 0.5) 3 ≤ (e.2.daysActive : ℚ)))).map
        (fun e =>
          { key := e.1,
            periodGrowth :=
              if 0 < e.2.firstPrice then
                (e.2.lastPrice - e.2.firstPrice) / e.2.firstPrice * 100
              else 0,
            avgDailyVolume := e.2.totalVolume / (e.2.daysActive : ℚ),
            daysActive := e.2.daysActive,
            maxMarketCap := e.2.maxMarketCap })
    (performers.insertionSort periodGrowthDesc).take limit

end TokenDatabase

/-- The composite score exactly as the specification words it (claim C1):
base 50, a price-change adjustment clamped to `[-25,25]`, a
volume-to-market-cap adjustment capped at `15`, the liquidity-health bonus,
a buy/sell-ratio nudge `+5` if the ratio exceeds `1.2` and `-5` if it is
below `0.8`, with the sum clamped to `[0,100]`. -/
def specScore (priceChange24h volumeToMcapRatio : ℚ) (liquidityHealth : LiquidityHealth)
    (ratio : ℚ) : ℚ :=
  max 0 (min 100 (50 + min (max (0.5 * priceChange24h) (-25)) 25
    + min (0.3 * volumeToMcapRatio) 15
    + (match liquidityHealth with
       | .healthy => 10
       | .moderate => 5
       | .poor => -10
       | _ => 0)
    + (if ratio > 1.2 then 5 else if ratio < 0.8 then -5 else 0)))

/-- `weeklyGrowth` as the specification words it (claim C5): with at least 2
data points, the percent change from the earliest data point with a valid
(positive) price to the most recent data point with a valid price; `0`
otherwise. -/
def specWeeklyGrowth (points : List DailyPoint) : ℚ :=
  if points.length < 2 then 0
  else
    match points.filter (fun p => decide (0 < p.price)) with
    | [] => 0
    | v :: vs => calculatePercentageChange (vs.getLastD v).price v.price

/-- The ordinary-least-squares slope as the specification words it (claim
C9): index `x = 0..n-1`, closed form `(nΣxy - ΣxΣy) / (nΣx² - (Σx)²)`,
the sums running over the index range. -/
def specSlope (values : List ℚ) : ℚ :=
  let n : ℚ := (values.length : ℚ)
  let sx : ℚ := ((List.range values.length).map (fun (i : ℕ) => (i : ℚ))).sum
  let sy : ℚ := ((List.range values.length).map (fun (i : ℕ) => values.getD i 0)).sum
  let sxy : ℚ := ((List.range values.length).map (fun (i : ℕ) => (i : ℚ) * values.getD i 0)).sum
  let sxx : ℚ := ((List.range values.length).map (fun (i : ℕ) => (i : ℚ) ^ 2)).sum
  (n * sxy - sx * sy) / (n * sxx - sx ^ 2)

/-- `List.enumFrom` written as a map over the index range: the bridge between
the single-pass loops of the source and index-based sums. -/
theorem enumFrom_eq_range_map (l : List ℚ) :
    ∀ k : ℕ, l.enumFrom k = (List.range l.length).map (fun i => (k + i, l.getD i 0)) := by
  induction l with
  | nil => intro k; simp
  | cons a t ih =>
    intro k
    rw [List.enumFrom, List.length_cons, List.range_succ_eq_map, List.map_cons, List.map_map]
    refine congrArg₂ _ (by simp) ?_
    rw [ih (k + 1)]
    refine List.map_congr_left ?_
    intro i _
    simp only [Function.comp, Prod.mk.injEq, List.getD_cons_succ]
    exact ⟨by omega, trivial⟩

/-- `List.enum` written as a map over the index range. -/
theorem enum_eq_range_map (l : List ℚ) :
    l.enum = (List.range l.length).map (fun i => (i, l.getD i 0)) := by
  have h := enumFrom_eq_range_map l 0
  simpa using h

/-! ## Claim C1 — the composite performance score -/

/-- **C1, counterexample.**  The claim's formula applies the buy/sell-ratio
nudge to the raw ratio.  A ratio of exactly `0` is reachable
(`calculateBuyToSellRatio 0 5 = 0`, i.e. a day with buys and no sells
reversed: zero buys, five sells); on it the claim's formula subtracts `5`
(since `0 < 0.8`), giving `45`, while the code's `buyToSellRatio || 1`
default yields no nudge and the score `50`. -/
theorem performanceScore_claim_false :
    PerformanceAnalyzer.calculateBuyToSellRatio 0 5 = 0 ∧
    PerformanceAnalyzer.calculatePerformanceScore ⟨0, 0, .unknown, 0⟩ = 50 ∧
    specScore 0 0 .unknown 0 = 45 ∧ (50 : ℚ) ≠ 45 := by
  refine ⟨by norm_num [PerformanceAnalyzer.calculateBuyToSellRatio], ?_, ?_, by norm_num⟩
  · show max 0 (min 100 (50 + min (max ((0 : ℚ) * 0.5) (-25)) 25 + min ((0 : ℚ) * 0.3) 15
      + 0 + if (1 : ℚ) > 1.2 then 5 else if (1 : ℚ) < 0.8 then -5 else 0)) = 50
    norm_num
  · show max 0 (min 100 (50 + min (max ((0.5 : ℚ) * 0) (-25)) 25 + min ((0.3 : ℚ) * 0) 15
      + 0 + if (0 : ℚ) > 1.2 then 5 else if (0 : ℚ) < 0.8 then -5 else 0)) = 45
    norm_num

/-- **C1, amended.**  For every Performance Analysis the composite score is
in `[0,100]`, and it equals the claim's formula — base 50, price-change
adjustment clamped to `[-25,25]`, volume-to-market-cap adjustment capped at
15, the liquidity-health bonus, the buy/sell-ratio nudge, final clamp to
`[0,100]` — provided the nudge is applied to the ratio with a falsy (zero)
value defaulted to `1`, so that a zero ratio receives no nudge. -/
theorem performanceScore_amended (analysis : PerformanceAnalyzer.AnalysisPerformance) :
    0 ≤ PerformanceAnalyzer.calculatePerformanceScore analysis ∧
    PerformanceAnalyzer.calculatePerformanceScore analysis ≤ 100 ∧
    PerformanceAnalyzer.calculatePerformanceScore analysis =
      specScore analysis.change24h analysis.volumeToMcapRatio analysis.liquidityHealth
        (if analysis.buyToSellRatio = 0 then 1 else analysis.buyToSellRatio) := by
  refine ⟨le_max_left _ _, max_le (by norm_num) (min_le_left _ _), ?_⟩
  unfold PerformanceAnalyzer.calculatePerformanceScore specScore
  dsimp only
  rw [mul_comm analysis.change24h (0.5 : ℚ), mul_comm analysis.volumeToMcapRatio (0.3 : ℚ)]

/-! ## Claim C9 — the linear trend slope -/

/-- **C9, confirmed.**  `calculateTrend` returns `0` for fewer than 2 values
and otherwise the ordinary-least-squares slope of the values against the
index range `0..n-1` in the closed form `(nΣxy - ΣxΣy) / (nΣx² - (Σx)²)`;
in particular the slope of `[1,2,3,4]` is `1`, of `[4,3,2,1]` is `-1`, and
of the singleton `[5]` it is `0`. -/
theorem calculateTrend_ols :
    WeeklyReportGenerator.calculateTrend [1, 2, 3, 4] = 1 ∧
    WeeklyReportGenerator.calculateTrend [4, 3, 2, 1] = -1 ∧
    WeeklyReportGenerator.calculateTrend [5] = 0 ∧
    (∀ values : List ℚ, values.length < 2 → WeeklyReportGenerator.calculateTrend values = 0) ∧
    (∀ values : List ℚ, 2 ≤ values.length →
      WeeklyReportGenerator.calculateTrend values = specSlope values) := by
  refine ⟨?_, ?_, ?_, ?_, ?_⟩
  · simp [WeeklyReportGenerator.calculateTrend, List.enum, List.enumFrom]; norm_num
  · simp [WeeklyReportGenerator.calculateTrend, List.enum, List.enumFrom]; norm_num
  · simp [WeeklyReportGenerator.calculateTrend]
  · intro values h
    unfold WeeklyReportGenerator.calculateTrend
    rw [if_pos h]
  · intro values h
    unfold WeeklyReportGenerator.calculateTrend specSlope
    rw [if_neg (by omega)]
    rw [enum_eq_range_map, List.map_map, List.map_map, List.map_map, List.map_map]
    simp only [Function.comp_def, pow_two]

/-! ## Claim C2 — the consistency score -/

/-- **C2, counterexample.**  The analyzer's `calculateConsistency` has no
`max(0, ...)` clamp, so its result is not always in `[0,1]`: on the
non-negative sequence `[1,1,1,1,21]` the mean is `5`, the population
standard deviation is `8`, and the result is `1 - 8/5 = -3/5 < 0`. -/
theorem calculateConsistency_claim_false :
    PerformanceAnalyzer.calculateConsistency [1, 1, 1, 1, 21] < 0 := by
  have h1 : PerformanceAnalyzer.calculateConsistency [1, 1, 1, 1, 21]
      = 1 - Real.sqrt (((64 : ℚ) : ℝ)) / ((5 : ℚ) : ℝ) := by
    unfold PerformanceAnalyzer.calculateConsistency
    norm_num
  rw [h1]
  have h2 : Real.sqrt (((64 : ℚ) : ℝ)) = 8 := by
    rw [show (((64 : ℚ)) : ℝ) = (8 : ℝ) ^ 2 by norm_num]
    exact Real.sqrt_sq (by norm_num)
  rw [h2]
  norm_num

/-- **C2, amended.**  Both consistency functions return `0` for sequences of
fewer than 2 values and `1` on the constant sequence `[5,5,5]`, and both are
bounded above by `1`; but only the weekly reporter's
`calculateVolumeConsistency` applies the `max(0, 1 - stdDev/mean)` clamp and
is therefore guaranteed to lie in `[0,1]` — the analyzer's
`calculateConsistency` returns the unclamped `1 - stdDev/mean` (when the
mean is positive; `0` otherwise) and can be negative. -/
theorem consistency_amended :
    (∀ values : List ℚ, values.length < 2 →
      PerformanceAnalyzer.calculateConsistency values = 0) ∧
    PerformanceAnalyzer.calculateConsistency [5, 5, 5] = 1 ∧
    (∀ values : List ℚ, PerformanceAnalyzer.calculateConsistency values ≤ 1) ∧
    (∀ dailyData : List DailyPoint,
      WeeklyReportGenerator.calculateVolumeConsistency dailyData ∈ Set.Icc (0 : ℝ) 1 ∧
      (dailyData.length < 2 → WeeklyReportGenerator.calculateVolumeConsistency dailyData = 0)) := by
  refine ⟨?_, ?_, ?_, ?_⟩
  · intro values h
    unfold PerformanceAnalyzer.calculateConsistency
    rw [if_pos h]
  · unfold PerformanceAnalyzer.calculateConsistency
    norm_num
  · intro values
    unfold PerformanceAnalyzer.calculateConsistency
    dsimp only
    split_ifs with h1 h2
    · norm_num
    · have hm : (0 : ℝ) < ((values.sum / (values.length : ℚ) : ℚ) : ℝ) := by
        exact_mod_cast h2
      have := div_nonneg (Real.sqrt_nonneg
        (((values.map (fun b => (b - values.sum / (values.length : ℚ)) ^ 2)).sum
            / (values.length : ℚ) : ℚ) : ℝ)) hm.le
      linarith
    · norm_num
  · intro dailyData
    constructor
    · unfold WeeklyReportGenerator.calculateVolumeConsistency
      dsimp only
      constructor
      · split_ifs <;> norm_num
      · split_ifs with h1 h2 h3
        · norm_num
        · norm_num
        · refine max_le (by norm_num) ?_
          have hm : (0 : ℝ) <
              ((((dailyData.map (fun d => d.volume24h)).filter
                    (fun v => decide (0 < v))).sum
                  / ((((dailyData.map (fun d => d.volume24h)).filter
                    (fun v => decide (0 < v))).length : ℚ)) : ℚ) : ℝ) := by
            exact_mod_cast h3
          have := div_nonneg (Real.sqrt_nonneg
            (((((dailyData.map (fun d => d.volume24h)).filter
                  (fun v => decide (0 < v))).map
                  (fun b => (b - ((dailyData.map (fun d => d.volume24h)).filter
                    (fun v => decide (0 < v))).sum
                    / ((((dailyData.map (fun d => d.volume24h)).filter
                      (fun v => decide (0 < v))).length : ℚ))) ^ 2)).sum
                / ((((dailyData.map (fun d => d.volume24h)).filter
                  (fun v => decide (0 < v))).length : ℚ) : ℚ) : ℚ) : ℝ)) hm.le
          linarith
        · norm_num
    · intro h
      unfold WeeklyReportGenerator.calculateVolumeConsistency
      rw [if_pos h]

/-! ## Claim C3 — batch ranking

Generic list lemmas about enumeration and about filtering a stable
insertion sort, followed by the combined ranking theorem. -/

/-- Adding one to each index of an enumeration yields a contiguous range. -/
theorem enumFrom_map_addOne {α : Type} (l : List α) :
    ∀ k : ℕ, ((l.enumFrom k).map (fun p => p.1 + 1)) = List.range' (k + 1) l.length := by
  induction l with
  | nil => intro k; simp
  | cons a t ih => intro k; simp [List.enumFrom, List.range', ih (k + 1)]

/-- The second component of an enumeration entry is an element of the list. -/
theorem mem_enumFrom_snd {α : Type} {l : List α} :
    ∀ {k : ℕ} {q : ℕ × α}, q ∈ l.enumFrom k → q.2 ∈ l := by
  induction l with
  | nil => intro k q h; simp [List.enumFrom] at h
  | cons a t ih =>
    intro k q h
    rw [List.enumFrom, List.mem_cons] at h
    rcases h with h | h
    · subst h; simp
    · exact List.mem_cons_of_mem _ (ih h)

/-- Enumeration preserves pairwise relations on the underlying elements. -/
theorem pairwise_enumFrom {α : Type} {R : α → α → Prop} {l : List α}
    (hl : l.Pairwise R) :
    ∀ k : ℕ, (l.enumFrom k).Pairwise (fun p q => R p.2 q.2) := by
  induction hl with
  | nil => intro k; simp
  | @cons a t ha _ ih =>
    intro k
    rw [List.enumFrom, List.pairwise_cons]
    refine ⟨?_, ih (k + 1)⟩
    intro q hq
    exact ha q.2 (mem_enumFrom_snd hq)

/-- Dropping the indices of an enumeration recovers the list. -/
theorem enumFrom_map_snd {α : Type} (l : List α) :
    ∀ k : ℕ, (l.enumFrom k).map Prod.snd = l := by
  induction l with
  | nil => intro k; rfl
  | cons a t ih => intro k; simp [List.enumFrom, ih (k + 1)]

/-- Ordered insertion does not disturb the sublist selected by a predicate
whose holders are mutually related by `r`: the inserted element cannot move
past any other holder of the predicate. -/
theorem filter_orderedInsert {α : Type} (r : α → α → Prop) [DecidableRel r] (p : α → Bool)
    (a : α) (l : List α) (H : ∀ b ∈ l, p a = true → p b = true → r a b) :
    (l.orderedInsert r a).filter p = (a :: l).filter p := by
  induction l with
  | nil => rfl
  | cons b t ih =>
    rw [List.orderedInsert]
    by_cases hr : r a b
    · rw [if_pos hr]
    · rw [if_neg hr]
      have ih2 : (t.orderedInsert r a).filter p = (a :: t).filter p :=
        ih (fun c hc => H c (List.mem_cons_of_mem _ hc))
      by_cases hpa : p a
      · have hpb : p b = false := by
          rcases Bool.eq_false_or_eq_true (p b) with h | h
          · exact absurd (H b (List.mem_cons_self _ _) hpa h) hr
          · exact h
        simp [List.filter_cons, hpa, hpb, ih2]
      · have hpa2 : p a = false := by
          rcases Bool.eq_false_or_eq_true (p a) with h | h
          · exact absurd h hpa
          · exact h
        simp [List.filter_cons, hpa2, ih2]

/-- Stability of insertion sort: the sublist of elements selected by a
predicate whose holders are mutually related by `r` is unchanged by the
sort. -/
theorem filter_insertionSort {α : Type} (r : α → α → Prop) [DecidableRel r] (p : α → Bool)
    (hp : ∀ a b : α, p a = true → p b = true → r a b) (l : List α) :
    (l.insertionSort r).filter p = l.filter p := by
  induction l with
  | nil => rfl
  | cons a t ih =>
    rw [List.insertionSort, filter_orderedInsert r p a _ (fun b _ => hp a b)]
    simp [List.filter_cons, ih]

/-- **C3, confirmed.**  `rankTokens` assigns ranks that are exactly the
contiguous range `1..n`; the resulting batch is pairwise descending by
score; the subsequence of analyses with any given score — observed through
the `(score, tag)` payload, since ranks are rewritten — equals the input's
subsequence with that score (stability); and whatever analysis comes back
first has rank `1` and a score no smaller than every other. -/
theorem rankTokens_spec (l : List PerformanceAnalyzer.TokenAnalysis) :
    ((PerformanceAnalyzer.rankTokens l).map (·.rank) = List.range' 1 l.length) ∧
    (PerformanceAnalyzer.rankTokens l).Pairwise (fun a b => b.score ≤ a.score) ∧
    (∀ s : ℚ,
      ((PerformanceAnalyzer.rankTokens l).map (fun a => (a.score, a.tag))).filter
          (fun q => decide (q.1 = s)) =
        (l.map (fun a => (a.score, a.tag))).filter (fun q => decide (q.1 = s))) ∧
    (∀ hd rest, PerformanceAnalyzer.rankTokens l = hd :: rest →
      hd.rank = 1 ∧ ∀ b ∈ rest, b.score ≤ hd.score) := by
  have hranks : (PerformanceAnalyzer.rankTokens l).map (·.rank) = List.range' 1 l.length := by
    unfold PerformanceAnalyzer.rankTokens
    dsimp only
    rw [List.map_map]
    have h : ((fun a : PerformanceAnalyzer.TokenAnalysis => a.rank) ∘
        fun p : ℕ × PerformanceAnalyzer.TokenAnalysis => { p.2 with rank := p.1 + 1 }) =
        fun p : ℕ × PerformanceAnalyzer.TokenAnalysis => p.1 + 1 := rfl
    rw [h]
    simp only [List.enum]
    rw [enumFrom_map_addOne]
    simp [List.length_insertionSort]
  have hsorted : (PerformanceAnalyzer.rankTokens l).Pairwise PerformanceAnalyzer.scoreDesc := by
    unfold PerformanceAnalyzer.rankTokens
    dsimp only
    rw [List.pairwise_map]
    simp only [List.enum]
    exact pairwise_enumFrom
      (List.sorted_insertionSort PerformanceAnalyzer.scoreDesc l) 0
  refine ⟨hranks, hsorted, ?_, ?_⟩
  · intro s
    unfold PerformanceAnalyzer.rankTokens
    dsimp only
    rw [List.map_map]
    have h1 : ((fun a : PerformanceAnalyzer.TokenAnalysis => (a.score, a.tag)) ∘
        fun p : ℕ × PerformanceAnalyzer.TokenAnalysis => { p.2 with rank := p.1 + 1 }) =
        ((fun a : PerformanceAnalyzer.TokenAnalysis => (a.score, a.tag)) ∘ Prod.snd) := rfl
    rw [h1, ← List.map_map, List.enum, enumFrom_map_snd]
    rw [List.filter_map, List.filter_map]
    congr 1
    exact filter_insertionSort PerformanceAnalyzer.scoreDesc _
      (fun a b ha hb => by
        simp only [Function.comp_apply, decide_eq_true_eq] at ha hb
        show b.score ≤ a.score
        rw [ha, hb]) l
  · intro hd rest heq
    have hr := hranks
    rw [heq] at hr
    have hlen : l.length = rest.length + 1 := by
      have hlen2 := congrArg List.length hr
      simpa using hlen2.symm
    rw [hlen, List.range'] at hr
    have hhd : hd.rank = 1 := (List.cons.injEq _ _ _ _ ▸ hr).1
    refine ⟨hhd, ?_⟩
    intro b hb
    have hs := hsorted
    rw [heq, List.pairwise_cons] at hs
    exact hs.1 b hb

/-! ## Claim C4 — the top-performers window query -/

/-- **C4, counterexample.**  `Math.min(days * 0.5, 3)` is an upper cap of 3
on the activity threshold, not a floor: for a 2-day window the threshold is
`min(1, 3) = 1`, and an asset seen on a single day (here asset `Y`, priced
`1.0`) is returned with `daysActive = 1 < 3`, contradicting the claim that
no asset active fewer than 3 days ever appears. -/
theorem getTopPerformers_claim_false :
    (TokenDatabase.getTopPerformers [[⟨"Y", 1, 0, 0, 0⟩]] 2 20).map (·.daysActive) = [1] ∧
    (1 : ℕ) < 3 := by
  constructor
  · norm_num [TokenDatabase.getTopPerformers, TokenDatabase.upsertPerf,
      TokenDatabase.updatePerf, TokenDatabase.freshPerf, List.insertionSort,
      List.orderedInsert, List.filter_cons]
  · norm_num

/-- **C4, amended.**  Every asset returned by `getTopPerformers` satisfies
`daysActive ≥ min(0.5 × windowDays, 3)`; this threshold is a cap of 3 — it
equals 3 only for windows of at least 6 days, in which case no returned
asset was active fewer than 3 days — and the qualifying assets are returned
pairwise descending by period growth and truncated to the limit.  The weekly
reporter's `getTopWeeklyPerformers` uses the constant threshold 3, so there
every returned asset has `daysActive ≥ 3`. -/
theorem getTopPerformers_amended (historicalData : List (List Token)) (days : ℚ) (limit : ℕ) :
    (∀ p ∈ TokenDatabase.getTopPerformers historicalData days limit,
      min (days * 0.5) 3 ≤ (p.daysActive : ℚ)) ∧
    (6 ≤ days → ∀ p ∈ TokenDatabase.getTopPerformers historicalData days limit,
      3 ≤ p.daysActive) ∧
    (TokenDatabase.getTopPerformers historicalData days limit).Pairwise
      (fun a b => b.periodGrowth ≤ a.periodGrowth) ∧
    (TokenDatabase.getTopPerformers historicalData days limit).length ≤ limit ∧
    (∀ tokens : List WeeklyReportGenerator.AggregatedToken, ∀ lim : ℕ,
      ∀ t ∈ WeeklyReportGenerator.getTopWeeklyPerformers tokens lim, 3 ≤ t.daysActive) := by
  have hmem : ∀ p ∈ TokenDatabase.getTopPerformers historicalData days limit,
      min (days * 0.5) 3 ≤ (p.daysActive : ℚ) := by
    intro p hp
    unfold TokenDatabase.getTopPerformers at hp
    by_cases hlen : historicalData.length = 0
    · rw [if_pos hlen] at hp
      simp at hp
    · rw [if_neg hlen] at hp
      dsimp only at hp
      have hp2 := (List.perm_insertionSort TokenDatabase.periodGrowthDesc _).mem_iff.mp
        (List.mem_of_mem_take hp)
      rcases List.mem_map.mp hp2 with ⟨e, he, hpe⟩
      have := List.of_mem_filter he
      rw [decide_eq_true_eq] at this
      rw [← hpe]
      exact this
  refine ⟨hmem, ?_, ?_, ?_, ?_⟩
  · intro hdays p hp
    have h1 := hmem p hp
    rw [min_eq_right (by linarith : (3 : ℚ) ≤ days * 0.5)] at h1
    exact_mod_cast h1
  · unfold TokenDatabase.getTopPerformers
    by_cases hlen : historicalData.length = 0
    · rw [if_pos hlen]; simp
    · rw [if_neg hlen]
      dsimp only
      exact List.Pairwise.sublist (List.take_sublist _ _)
        (List.sorted_insertionSort TokenDatabase.periodGrowthDesc _)
  · unfold TokenDatabase.getTopPerformers
    by_cases hlen : historicalData.length = 0
    · rw [if_pos hlen]; simp
    · rw [if_neg hlen]
      dsimp only
      rw [List.length_take]
      exact min_le_left _ _
  · intro tokens lim t ht
    unfold WeeklyReportGenerator.getTopWeeklyPerformers at ht
    have ht2 := (List.perm_insertionSort WeeklyReportGenerator.weeklyGrowthDesc _).mem_iff.mp
      (List.mem_of_mem_take ht)
    have := List.of_mem_filter ht2
    rwa [decide_eq_true_eq] at this

/-! ## The aggregation fold invariant

One generic preservation lemma over `aggregateFold`, instantiated by the
claims about `aggregateWeeklyTokenData`: any property of a map entry that
holds of a freshly created-and-updated accumulator and is preserved by
`updateAgg` holds of every entry of the final map. -/

theorem upsertAgg_inv (P : String × WeeklyReportGenerator.TokenAgg → Prop)
    (d : ℕ) (t : Token)
    (hfresh : P (t.key, WeeklyReportGenerator.updateAgg d t (WeeklyReportGenerator.freshAgg d t)))
    (hupd : ∀ (k : String) (v : WeeklyReportGenerator.TokenAgg),
      P (k, v) → P (k, WeeklyReportGenerator.updateAgg d t v)) :
    ∀ m : List (String × WeeklyReportGenerator.TokenAgg),
      (∀ e ∈ m, P e) → ∀ e ∈ WeeklyReportGenerator.upsertAgg d t m, P e := by
  intro m
  induction m with
  | nil =>
    intro _ e he
    rw [WeeklyReportGenerator.upsertAgg, List.mem_singleton] at he
    exact he ▸ hfresh
  | cons kv rest ih =>
    intro hm e he
    rw [WeeklyReportGenerator.upsertAgg] at he
    by_cases hk : kv.1 = t.key
    · rw [if_pos hk, List.mem_cons] at he
      rcases he with he | he
      · subst he
        exact hupd kv.1 kv.2 (hm kv (List.mem_cons_self _ _))
      · exact hm e (List.mem_cons_of_mem _ he)
    · rw [if_neg hk, List.mem_cons] at he
      rcases he with he | he
      · exact he ▸ hm kv (List.mem_cons_self _ _)
      · exact ih (fun x hx => hm x (List.mem_cons_of_mem _ hx)) e he

theorem aggregateFold_inv (P : String × WeeklyReportGenerator.TokenAgg → Prop)
    (hfresh : ∀ (d : ℕ) (t : Token),
      P (t.key, WeeklyReportGenerator.updateAgg d t (WeeklyReportGenerator.freshAgg d t)))
    (hupd : ∀ (d : ℕ) (t : Token) (k : String) (v : WeeklyReportGenerator.TokenAgg),
      P (k, v) → P (k, WeeklyReportGenerator.updateAgg d t v)) :
    ∀ (weeklyData : List DayData) (e : String × WeeklyReportGenerator.TokenAgg),
      e ∈ WeeklyReportGenerator.aggregateFold weeklyData → P e := by
  have htok : ∀ (d : ℕ) (ts : List Token) (m : List (String × WeeklyReportGenerator.TokenAgg)),
      (∀ e ∈ m, P e) →
      ∀ e ∈ ts.foldl (fun m t => WeeklyReportGenerator.upsertAgg d t m) m, P e := by
    intro d ts
    induction ts with
    | nil => intro m hm e he; exact hm e he
    | cons t rest ih =>
      intro m hm e he
      rw [List.foldl_cons] at he
      exact ih _ (upsertAgg_inv P d t (hfresh d t) (fun k v => hupd d t k v) m hm) e he
  have hdays : ∀ (wd : List DayData) (m : List (String × WeeklyReportGenerator.TokenAgg)),
      (∀ e ∈ m, P e) →
      ∀ e ∈ wd.foldl
          (fun m dayData =>
            match dayData.tokens with
            | none => m
            | some tokens =>
                tokens.foldl (fun m t => WeeklyReportGenerator.upsertAgg dayData.date t m) m)
          m, P e := by
    intro wd
    induction wd with
    | nil => intro m hm e he; exact hm e he
    | cons day rest ih =>
      intro m hm e he
      rw [List.foldl_cons] at he
      rcases hday : day.tokens with _ | ts
      · rw [hday] at he
        exact ih m hm e he
      · rw [hday] at he
        exact ih _ (htok day.date ts m hm) e he
  intro wd e he
  exact hdays wd [] (by intro x hx; simp at hx) e he

/-! ## Claim C10 — `daysActive` counts the daily data points -/

/-- **C10, confirmed.**  Every accumulator in the token map satisfies
`daysActive = dailyData.length ≥ 1` (each appearance appends exactly one
point and increments the counter once), so the `avgVolume` and
`avgMarketCap` divisions of the final `.map` have nonzero denominators. -/
theorem aggregate_daysActive_safe (weeklyData : List DayData) :
    (∀ e ∈ WeeklyReportGenerator.aggregateFold weeklyData,
      e.2.daysActive = e.2.dailyData.length ∧ 1 ≤ e.2.daysActive) ∧
    (∀ t ∈ WeeklyReportGenerator.aggregateWeeklyTokenData weeklyData,
      t.daysActive = t.dailyData.length ∧ 1 ≤ t.daysActive ∧
      ((t.daysActive : ℚ) ≠ 0 ∧ ((t.dailyData.length : ℚ)) ≠ 0) ∧
      t.avgVolume = t.totalVolumeWeek / (t.daysActive : ℚ) ∧
      t.avgMarketCap = (t.dailyData.map (·.marketCap)).sum / ((t.dailyData.length : ℚ))) := by
  have hfold : ∀ e ∈ WeeklyReportGenerator.aggregateFold weeklyData,
      e.2.daysActive = e.2.dailyData.length ∧ 1 ≤ e.2.daysActive := by
    intro e he
    refine aggregateFold_inv
      (fun e => e.2.daysActive = e.2.dailyData.length ∧ 1 ≤ e.2.daysActive) ?_ ?_
      weeklyData e he
    · intro d t
      simp [WeeklyReportGenerator.updateAgg, WeeklyReportGenerator.freshAgg]
    · intro d t k v hv
      dsimp only at hv
      obtain ⟨h1, h2⟩ := hv
      unfold WeeklyReportGenerator.updateAgg
      dsimp only
      split_ifs <;> simp [List.length_append] <;> omega
  refine ⟨hfold, ?_⟩
  intro t ht
  unfold WeeklyReportGenerator.aggregateWeeklyTokenData at ht
  rcases List.mem_map.mp ht with ⟨e, he, hte⟩
  obtain ⟨h1, h2⟩ := hfold e he
  subst hte
  unfold WeeklyReportGenerator.finalizeAgg
  dsimp only
  refine ⟨h1, by omega, ⟨?_, ?_⟩, rfl, rfl⟩
  · exact_mod_cast by omega
  · rw [← h1]
    exact_mod_cast by omega

/-! Projection lemmas for `updateAgg`: the second stage only rewrites
`weeklyGrowth`, so every other field projects through the conditional. -/

theorem updateAgg_dailyData (d : ℕ) (t : Token) (v : WeeklyReportGenerator.TokenAgg) :
    (WeeklyReportGenerator.updateAgg d t v).dailyData =
      v.dailyData ++ [⟨d, t.price, t.volume24h, t.marketCap, t.priceChange24h⟩] := by
  unfold WeeklyReportGenerator.updateAgg
  dsimp only
  rw [apply_ite (fun r : WeeklyReportGenerator.TokenAgg => r.dailyData)]
  dsimp only
  rw [ite_self]

theorem updateAgg_daysActive (d : ℕ) (t : Token) (v : WeeklyReportGenerator.TokenAgg) :
    (WeeklyReportGenerator.updateAgg d t v).daysActive = v.daysActive + 1 := by
  unfold WeeklyReportGenerator.updateAgg
  dsimp only
  rw [apply_ite (fun r : WeeklyReportGenerator.TokenAgg => r.daysActive)]
  dsimp only
  rw [ite_self]

theorem updateAgg_maxMarketCap (d : ℕ) (t : Token) (v : WeeklyReportGenerator.TokenAgg) :
    (WeeklyReportGenerator.updateAgg d t v).maxMarketCap = max v.maxMarketCap t.marketCap := by
  unfold WeeklyReportGenerator.updateAgg
  dsimp only
  rw [apply_ite (fun r : WeeklyReportGenerator.TokenAgg => r.maxMarketCap)]
  dsimp only
  rw [ite_self]

theorem updateAgg_minMarketCap (d : ℕ) (t : Token) (v : WeeklyReportGenerator.TokenAgg) :
    (WeeklyReportGenerator.updateAgg d t v).minMarketCap =
      if t.marketCap = 0 then v.minMarketCap else min v.minMarketCap t.marketCap := by
  unfold WeeklyReportGenerator.updateAgg
  dsimp only
  rw [apply_ite (fun r : WeeklyReportGenerator.TokenAgg => r.minMarketCap)]
  dsimp only
  rw [ite_self]

theorem updateAgg_weeklyGrowth (d : ℕ) (t : Token) (v : WeeklyReportGenerator.TokenAgg) :
    (WeeklyReportGenerator.updateAgg d t v).weeklyGrowth =
      if 1 < (v.dailyData ++
          [(⟨d, t.price, t.volume24h, t.marketCap, t.priceChange24h⟩ : DailyPoint)]).length then
        (if 0 < (v.dailyData ++
            [(⟨d, t.price, t.volume24h, t.marketCap,
              t.priceChange24h⟩ : DailyPoint)]).headI.price then
          (t.price - (v.dailyData ++
            [(⟨d, t.price, t.volume24h, t.marketCap,
              t.priceChange24h⟩ : DailyPoint)]).headI.price) /
            (v.dailyData ++
              [(⟨d, t.price, t.volume24h, t.marketCap,
                t.priceChange24h⟩ : DailyPoint)]).headI.price * 100
        else 0)
      else v.weeklyGrowth := by
  unfold WeeklyReportGenerator.updateAgg
  dsimp only
  rw [apply_ite (fun r : WeeklyReportGenerator.TokenAgg => r.weeklyGrowth)]

/-! ## Claim C5 — `weeklyGrowth` and valid prices -/

/-- Three snapshots of a single asset whose first recorded price is `0`
(missing) and whose later prices are `1` and `2`. -/
def zeroFirstPriceWeek : List DayData :=
  [⟨1, some [⟨"A", 0, 0, 0, 0⟩]⟩, ⟨2, some [⟨"A", 1, 0, 0, 0⟩]⟩,
   ⟨3, some [⟨"A", 2, 0, 0, 0⟩]⟩]

/-- **C5, counterexample.**  `weeklyGrowth` uses `dailyData[0].price`
unconditionally: when the earliest point's price is `0` the growth is `0`,
with no scan for the earliest *valid* price.  On prices `[0, 1, 2]` the code
yields `0` while the claim's earliest-valid-to-latest-valid percent change
is `100`. -/
theorem weeklyGrowth_claim_false :
    ((WeeklyReportGenerator.aggregateFold zeroFirstPriceWeek).map
      (fun e => (e.2.weeklyGrowth, specWeeklyGrowth e.2.dailyData))) = [(0, 100)] ∧
    (0 : ℚ) ≠ 100 := by
  constructor
  · norm_num [zeroFirstPriceWeek, WeeklyReportGenerator.aggregateFold,
      WeeklyReportGenerator.upsertAgg, WeeklyReportGenerator.updateAgg,
      WeeklyReportGenerator.freshAgg, specWeeklyGrowth, calculatePercentageChange,
      List.filter_cons, List.getLastD]
  · norm_num

/-- **C5, amended.**  For every asset series produced by the aggregation
fold, `weeklyGrowth` equals the percent change from the *first* data point's
price (valid or not — `0` whenever that first price is not positive) to the
most recent data point's price as soon as the series has at least 2 data
points; an identity appearing in only one snapshot has `weeklyGrowth = 0`
and `daysActive = 1`. -/
theorem weeklyGrowth_amended (weeklyData : List DayData) (k : String)
    (t : WeeklyReportGenerator.TokenAgg)
    (ht : (k, t) ∈ WeeklyReportGenerator.aggregateFold weeklyData) :
    ∃ d rest, t.dailyData = d :: rest ∧ t.daysActive = (d :: rest).length ∧
      (rest = [] → t.weeklyGrowth = 0) ∧
      (rest ≠ [] → t.weeklyGrowth =
        if 0 < d.price then ((rest.getLastD d).price - d.price) / d.price * 100 else 0) := by
  refine aggregateFold_inv
    (fun e => ∃ d rest, e.2.dailyData = d :: rest ∧ e.2.daysActive = (d :: rest).length ∧
      (rest = [] → e.2.weeklyGrowth = 0) ∧
      (rest ≠ [] → e.2.weeklyGrowth =
        if 0 < d.price then ((rest.getLastD d).price - d.price) / d.price * 100 else 0))
    ?_ ?_ weeklyData (k, t) ht
  · intro d tok
    refine ⟨⟨d, tok.price, tok.volume24h, tok.marketCap, tok.priceChange24h⟩, [], ?_, ?_, ?_, ?_⟩
    · simp [updateAgg_dailyData, WeeklyReportGenerator.freshAgg]
    · simp [updateAgg_daysActive, WeeklyReportGenerator.freshAgg]
    · intro _
      simp [updateAgg_weeklyGrowth, WeeklyReportGenerator.freshAgg]
    · intro h
      exact absurd rfl h
  · rintro d tok kk v ⟨d0, rest, hdd, hlen, _, _⟩
    dsimp only at hdd hlen ⊢
    refine ⟨d0, rest ++ [⟨d, tok.price, tok.volume24h, tok.marketCap, tok.priceChange24h⟩],
      ?_, ?_, ?_, ?_⟩
    · rw [updateAgg_dailyData, hdd]
      simp
    · rw [updateAgg_daysActive, hlen]
      simp
    · intro h
      exact absurd h (by simp)
    · intro _
      rw [updateAgg_weeklyGrowth, if_pos (by simp [hdd])]
      rw [List.getLastD_concat]
      have hhead : ((v.dailyData ++
          [(⟨d, tok.price, tok.volume24h, tok.marketCap,
            tok.priceChange24h⟩ : DailyPoint)]).headI) = d0 := by
        rw [hdd]
        rfl
      rw [hhead]

/-- A single snapshot of a single asset, for instantiating the aggregation
theorems at a concrete input. -/
def oneDayWeek : List DayData := [⟨1, some [⟨"W", 2, 3, 4, 0⟩]⟩]

/-- **C5, witness**: the amended statement evaluated on a one-snapshot range. -/
theorem weeklyGrowth_amended_witness :
    ∃ d rest,
      (WeeklyReportGenerator.updateAgg 1 ⟨"W", 2, 3, 4, 0⟩
          (WeeklyReportGenerator.freshAgg 1 ⟨"W", 2, 3, 4, 0⟩)).dailyData = d :: rest ∧
      (WeeklyReportGenerator.updateAgg 1 ⟨"W", 2, 3, 4, 0⟩
          (WeeklyReportGenerator.freshAgg 1 ⟨"W", 2, 3, 4, 0⟩)).daysActive = (d :: rest).length ∧
      (rest = [] →
        (WeeklyReportGenerator.updateAgg 1 ⟨"W", 2, 3, 4, 0⟩
          (WeeklyReportGenerator.freshAgg 1 ⟨"W", 2, 3, 4, 0⟩)).weeklyGrowth = 0) ∧
      (rest ≠ [] →
        (WeeklyReportGenerator.updateAgg 1 ⟨"W", 2, 3, 4, 0⟩
          (WeeklyReportGenerator.freshAgg 1 ⟨"W", 2, 3, 4, 0⟩)).weeklyGrowth =
          if 0 < d.price then ((rest.getLastD d).price - d.price) / d.price * 100 else 0) :=
  weeklyGrowth_amended oneDayWeek "W" _
    (by simp [oneDayWeek, WeeklyReportGenerator.aggregateFold, WeeklyReportGenerator.upsertAgg])

/-! ## Claim C7 — the running min/max market cap -/

/-- Two snapshots of one asset whose market cap is `5` on the first day and
`0` (missing) on the second. -/
def mcapDropWeek : List DayData :=
  [⟨1, some [⟨"B", 1, 0, 5, 0⟩]⟩, ⟨2, some [⟨"B", 1, 0, 0, 0⟩]⟩]

/-- **C7, counterexample.**  The running minimum is initialised to the first
observation's `marketCap || 0`, not to a `+∞` sentinel; the sentinel appears
only in later updates, where it makes a zero market cap unable to lower the
minimum.  With observed market caps `[5, 0]` the code's `minMarketCap` is
`5`, but the minimum of the observed values is `min 5 0 = 0 ≠ 5`. -/
theorem minMarketCap_claim_false :
    ((WeeklyReportGenerator.aggregateFold mcapDropWeek).map
      (fun e => (e.2.minMarketCap, e.2.dailyData.map (·.marketCap)))) = [(5, [5, 0])] ∧
    min (5 : ℚ) 0 = 0 ∧ (5 : ℚ) ≠ 0 := by
  refine ⟨?_, by norm_num, by norm_num⟩
  norm_num [mcapDropWeek, WeeklyReportGenerator.aggregateFold,
    WeeklyReportGenerator.upsertAgg, WeeklyReportGenerator.updateAgg,
    WeeklyReportGenerator.freshAgg]

/-- **C7, amended.**  For every asset series produced by the aggregation
fold, `maxMarketCap` is the maximum of all observed market caps (missing
ones read as `0`), while `minMarketCap` is the fold over the observations
after the first that *skips* zero (missing) market caps — the `Infinity`
sentinel lives in the update, not the initialisation, so the first
observation's market cap (or `0`) always enters the minimum and later zero
observations never lower it. -/
theorem minMarketCap_amended (weeklyData : List DayData) (k : String)
    (t : WeeklyReportGenerator.TokenAgg)
    (ht : (k, t) ∈ WeeklyReportGenerator.aggregateFold weeklyData) :
    ∃ d rest, t.dailyData = d :: rest ∧
      t.maxMarketCap = (rest.map (·.marketCap)).foldl max d.marketCap ∧
      t.minMarketCap = rest.foldl
        (fun acc p => if p.marketCap = 0 then acc else min acc p.marketCap) d.marketCap := by
  refine aggregateFold_inv
    (fun e => ∃ d rest, e.2.dailyData = d :: rest ∧
      e.2.maxMarketCap = (rest.map (·.marketCap)).foldl max d.marketCap ∧
      e.2.minMarketCap = rest.foldl
        (fun acc p => if p.marketCap = 0 then acc else min acc p.marketCap) d.marketCap)
    ?_ ?_ weeklyData (k, t) ht
  · intro d tok
    refine ⟨⟨d, tok.price, tok.volume24h, tok.marketCap, tok.priceChange24h⟩, [], ?_, ?_, ?_⟩
    · simp [updateAgg_dailyData, WeeklyReportGenerator.freshAgg]
    · simp [updateAgg_maxMarketCap, WeeklyReportGenerator.freshAgg, max_self]
    · simp [updateAgg_minMarketCap, WeeklyReportGenerator.freshAgg, min_self]
  · rintro d tok kk v ⟨d0, rest, hdd, hmax, hmin⟩
    dsimp only at hdd hmax hmin ⊢
    refine ⟨d0, rest ++ [⟨d, tok.price, tok.volume24h, tok.marketCap, tok.priceChange24h⟩],
      ?_, ?_, ?_⟩
    · rw [updateAgg_dailyData, hdd]
      simp
    · rw [updateAgg_maxMarketCap, hmax]
      simp [List.map_append, List.foldl_append]
    · rw [updateAgg_minMarketCap, hmin]
      simp [List.foldl_append]

/-- **C7, witness**: the amended statement evaluated on a one-snapshot range. -/
theorem minMarketCap_amended_witness :
    ∃ d rest,
      (WeeklyReportGenerator.updateAgg 1 ⟨"W", 2, 3, 4, 0⟩
          (WeeklyReportGenerator.freshAgg 1 ⟨"W", 2, 3, 4, 0⟩)).dailyData = d :: rest ∧
      (WeeklyReportGenerator.updateAgg 1 ⟨"W", 2, 3, 4, 0⟩
          (WeeklyReportGenerator.freshAgg 1 ⟨"W", 2, 3, 4, 0⟩)).maxMarketCap =
        (rest.map (·.marketCap)).foldl max d.marketCap ∧
      (WeeklyReportGenerator.updateAgg 1 ⟨"W", 2, 3, 4, 0⟩
          (WeeklyReportGenerator.freshAgg 1 ⟨"W", 2, 3, 4, 0⟩)).minMarketCap =
        rest.foldl (fun acc p => if p.marketCap = 0 then acc else min acc p.marketCap)
          d.marketCap :=
  minMarketCap_amended oneDayWeek "W" _
    (by simp [oneDayWeek, WeeklyReportGenerator.aggregateFold, WeeklyReportGenerator.upsertAgg])

/-! ## Claim C6 — cohort survival -/

/-- **C6, confirmed.**  With fewer than 2 snapshots the survival analysis is
`none`; with at least 2 snapshots whose endpoint days both carry token
lists, it returns the record whose `survived` is the size of the
intersection of the two identity sets, `dropped` the first-set size minus
`survived`, `newEntrants` the size of the last set minus the first set, and
`survivalRate = survived/startingCount*100` (`0` for an empty start). -/
theorem analyzeSurvivalRates_spec :
    (∀ weeklyData : List DayData, weeklyData.length < 2 →
      WeeklyReportGenerator.analyzeSurvivalRates weeklyData = none) ∧
    (∀ (weeklyData : List DayData) (firstDay lastDay : DayData) (ft lt : List Token),
      2 ≤ weeklyData.length → weeklyData.head? = some firstDay →
      weeklyData.getLast? = some lastDay →
      firstDay.tokens = some ft → lastDay.tokens = some lt →
      ∃ r, WeeklyReportGenerator.analyzeSurvivalRates weeklyData = some r ∧
        r.startingTokens = ((ft.map (·.key)).toFinset).card ∧
        r.endingTokens = ((lt.map (·.key)).toFinset).card ∧
        r.survived = (((ft.map (·.key)).toFinset) ∩ ((lt.map (·.key)).toFinset)).card ∧
        r.dropped = ((ft.map (·.key)).toFinset).card - r.survived ∧
        r.newEntrants = (((lt.map (·.key)).toFinset) \ ((ft.map (·.key)).toFinset)).card ∧
        r.survivalRate = (if 0 < r.startingTokens then
          (r.survived : ℚ) / (r.startingTokens : ℚ) * 100 else 0)) := by
  constructor
  · intro weeklyData h
    unfold WeeklyReportGenerator.analyzeSurvivalRates
    rw [if_pos h]
  · intro weeklyData firstDay lastDay ft lt h2 hh hl hft hlt
    unfold WeeklyReportGenerator.analyzeSurvivalRates
    rw [if_neg (by omega), hh, hl]
    dsimp only
    rw [hft, hlt]
    dsimp only
    have hsurv : ((ft.map (·.key)).toFinset.filter
        (fun k => k ∈ (lt.map (·.key)).toFinset)).card =
        (((ft.map (·.key)).toFinset) ∩ ((lt.map (·.key)).toFinset)).card := by
      rw [Finset.filter_mem_eq_inter]
    have hnew : ((lt.map (·.key)).toFinset.filter
        (fun k => k ∉ (ft.map (·.key)).toFinset)).card =
        (((lt.map (·.key)).toFinset) \ ((ft.map (·.key)).toFinset)).card := by
      rw [Finset.sdiff_eq_filter]
    exact ⟨_, rfl, rfl, rfl, hsurv, by rw [hsurv], hnew, by rw [hsurv]⟩

/-! ## Claim C8 — the sustainability assessment -/

/-- The overall sustainability label exactly as the specification words it
(claim C8): `high` when the average exceeds `0.7`, `low` when it is below
`0.3`, else `moderate`. -/
noncomputable def specSustainabilityLabel (avg : ℝ) : PerformanceAnalyzer.SustainabilityLabel :=
  if avg > 0.7 then .high else if avg < 0.3 then .low else .moderate

/-- **C8, confirmed.**  `calculateSustainability` is total (never fails):
with fewer than 3 historical points it returns the neutral
`{score: 0.5, overall: 'unknown'}` record, and otherwise it returns the
record carrying the three sub-scores — volume consistency, liquidity
stability, and `max(0, 1 - volatility/100)` over the recent prices — whose
overall label is `high`/`low`/`moderate` according to whether their average
exceeds `0.7`, is below `0.3`, or neither. -/
theorem calculateSustainability_spec (current : PerformanceAnalyzer.TokenData)
    (historical : List PerformanceAnalyzer.TokenData) :
    (historical.length < 3 →
      PerformanceAnalyzer.calculateSustainability current historical =
        .insufficient 0.5 .unknown) ∧
    (3 ≤ historical.length →
      PerformanceAnalyzer.calculateSustainability current historical =
        .assessed (PerformanceAnalyzer.calculateVolumeConsistency current historical)
          (PerformanceAnalyzer.calculateLiquidityStability current historical)
          (max 0 (1 - PerformanceAnalyzer.calculateVolatility
            ((lastN 7 historical).map (·.price) ++ [current.price]) / 100))
          (specSustainabilityLabel
            ((PerformanceAnalyzer.calculateVolumeConsistency current historical +
              PerformanceAnalyzer.calculateLiquidityStability current historical +
              max 0 (1 - PerformanceAnalyzer.calculateVolatility
                ((lastN 7 historical).map (·.price) ++ [current.price]) / 100)) / 3))) := by
  constructor
  · intro h
    unfold PerformanceAnalyzer.calculateSustainability
    rw [if_pos h]
  · intro h
    unfold PerformanceAnalyzer.calculateSustainability
      PerformanceAnalyzer.calculatePriceStability specSustainabilityLabel
    rw [if_neg (by omega)]

end Dexscreener
